import Mathlib

/-!
Shallow embedding of `cpp/src/c_api/extract_paths.cpp` (cugraph C API path
extraction).

The boundary function `cugraph_extract_paths` (source lines 164-213), the
dispatched functor body `extract_paths_functor::operator()` (lines 60-137) and
the result record are translated from the source.  The collaborators that the
source only calls — `extract_bfs_paths`, `renumber_ext_vertices`,
`unrenumber_int_vertices`, `transpose_storage` — are not part of this file of
the repository and are modelled from the specification (spec sections 4.1-4.3,
4.4, 7).

Machine integers: vertex ids are modelled as `Int`; the reserved sentinel
(`invalid_vertex_id`) is passed explicitly as the `invalid` parameter.  A C++
exception escaping the functor is modelled as `Except.error (msg, g)` carrying
the message and the state of the caller's graph object at the throw point.
-/

set_option autoImplicit false

/-- Error codes of `cugraph_error_code_t` reachable from `cugraph_extract_paths`:
`CUGRAPH_SUCCESS`, `CUGRAPH_UNKNOWN_ERROR` (the catch-all at lines 207-210) and
the code set by `abstract_functor::unsupported()` for an invalid type
combination (spec error kind (a)). -/
inductive Status where
  | success
  | unknownError
  | unsupportedTypeCombination
  deriving DecidableEq, Repr

/-- The caller's graph object (`cugraph_graph_t`): vertex count, edge list,
renumbering map (internal id `i` maps to the caller-visible id `number_map[i]`),
the storage orientation flag `store_transposed_`, and whether the runtime
vertex/edge/weight type tags form a supported (`is_candidate`, line 68)
combination. -/
structure GraphC where
  nverts : Nat
  edges : List (Int × Int)
  number_map : List Int
  store_transposed_ : Bool
  types_supported : Bool
  deriving DecidableEq, Repr

/-- `cugraph_paths_result_t`: the upstream traversal's per-vertex distances and
predecessors (both indexed by internal vertex id; predecessor values are in
caller-visible id space, as delivered by the traversal stage). -/
structure PathsResultC where
  distances_ : List Int
  predecessors_ : List Int
  deriving DecidableEq, Repr

/-- `cugraph_extract_paths_result_t` (source lines 33-36). -/
structure ExtractPathsResultC where
  max_path_length_ : Nat
  paths_ : List Int
  deriving DecidableEq, Repr

/-- Modelled from the spec: the length pass of the Path Reconstruction Engine
(`extract_bfs_paths`, not under src/).  Backward predecessor walk from `d`,
counting the vertices on the chain until the sentinel is reached; the walk is
fuel-bounded (spec 4.2 failure semantics: cap at the graph vertex count) and
returns `none` when the cap is exceeded (suspected cycle). -/
def chainLen (preds : List Int) (invalid : Int) : Int → Nat → Option Nat
  | _, 0 => none
  | d, fuel + 1 =>
    if preds.getD d.toNat invalid = invalid then some 1
    else (chainLen preds invalid (preds.getD d.toNat invalid) fuel).map (· + 1)

/-- Modelled from the spec: the terminal vertex of the backward predecessor walk
from `d` — the vertex at which the chain reaches the predecessor sentinel —
fuel-bounded exactly like the counting walk. -/
def chainEnd (preds : List Int) (invalid : Int) : Int → Nat → Option Int
  | _, 0 => none
  | d, fuel + 1 =>
    if preds.getD d.toNat invalid = invalid then some d
    else chainEnd preds invalid (preds.getD d.toNat invalid) fuel

/-- Modelled from the spec: reconstructed path length (vertex count) for a
destination `d` (spec 4.2): `0` when the distance sentinel marks `d`
unreachable, and also `0` when the predecessor chain from `d` terminates
without reaching a true source marker (its terminal vertex does not carry
distance `0`); otherwise the vertex count of the predecessor-chain walk.
`none` when the fuel-bounded walk exceeds the vertex-count cap. -/
def lenOf (nverts : Nat) (dists preds : List Int) (invalid : Int) (d : Int) : Option Nat :=
  if dists.getD d.toNat invalid = invalid then some 0
  else
    match chainLen preds invalid d nverts, chainEnd preds invalid d nverts with
    | some l, some v => some (if dists.getD v.toNat invalid = 0 then l else 0)
    | _, _ => none

/-- Modelled from the spec: the vertices visited by the backward walk from `d`,
in walk (destination-to-source) order, truncated to `l` vertices. -/
def walkList (preds : List Int) (invalid : Int) : Int → Nat → List Int
  | _, 0 => []
  | d, l + 1 => d :: walkList preds invalid (preds.getD d.toNat invalid) l

/-- Modelled from the spec: the materialization pass for one destination
(spec 4.2 step 2): the row's last `len[d]` entries are the path in
source-to-destination order, the leading `m - len[d]` entries are the sentinel
pad. -/
def mkRow (nverts : Nat) (dists preds : List Int) (invalid : Int) (m : Nat) (d : Int) :
    List Int :=
  List.replicate (m - (lenOf nverts dists preds invalid d).getD 0) invalid ++
    (walkList preds invalid d ((lenOf nverts dists preds invalid d).getD 0)).reverse

/-- Modelled from the spec: the global maximum path length, a max-reduction over
the per-destination lengths. -/
def maxPathLen (nverts : Nat) (dists preds : List Int) (invalid : Int)
    (dests : List Int) : Nat :=
  (dests.map (fun d => (lenOf nverts dists preds invalid d).getD 0)).foldl max 0

/-- Modelled from the spec: the Path Reconstruction Engine `extract_bfs_paths`
(not under src/; called at source lines 119-126).  Two-pass reconstruction over
internal-space inputs, returning the row-major padded path buffer and the
maximum path length; a predecessor walk exceeding the vertex-count cap aborts
the whole call with an internal-consistency failure (modelled as the thrown
message). -/
def extract_bfs_paths (nverts : Nat) (dists preds : List Int) (invalid : Int)
    (dests : List Int) : Except String (List Int × Nat) :=
  if dests.all (fun d => (lenOf nverts dists preds invalid d).isSome) = true then
    .ok ((dests.map (mkRow nverts dists preds invalid
            (maxPathLen nverts dists preds invalid dests))).join,
         maxPathLen nverts dists preds invalid dests)
  else .error "extract_bfs_paths: predecessor chain exceeded vertex count (cycle suspected)"

/-- Modelled from the spec: the Renumbering Adapter's bulk caller-space to
internal-space operation (`renumber_ext_vertices`, not under src/; called at
source lines 103-117).  Sentinel entries are preserved; a valid id is replaced
by its position in the renumbering map; an id absent from the map is a lookup
failure (spec error kind (b)), modelled as a thrown message. -/
def renumber_ext_vertices (number_map : List Int) (invalid : Int) (xs : List Int) :
    Except String (List Int) :=
  if xs.all (fun x => x == invalid || number_map.contains x) = true then
    .ok (xs.map (fun x => if x = invalid then invalid else (number_map.indexOf x : Int)))
  else .error "renumber_ext_vertices: vertex id not found in renumbering map"

/-- Modelled from the spec: the Renumbering Adapter's bulk internal-space to
caller-space operation (`unrenumber_int_vertices`, not under src/; called at
source lines 130-131).  Pad/sentinel entries are preserved verbatim; valid
internal ids are mapped through the renumbering map (spec 4.3). -/
def unrenumber_int_vertices (number_map : List Int) (invalid : Int) (xs : List Int) :
    List Int :=
  xs.map (fun x => if x = invalid then invalid else number_map.getD x.toNat invalid)

/-- Modelled from the spec: `transpose_storage` (not under src/; called at
source lines 72-77): flips the storage orientation of the caller's graph object
in place, yielding the non-transposed representation BFS/SSSP require. -/
def transpose_storage (g : GraphC) : GraphC :=
  { g with edges := g.edges.map (fun e => (e.2, e.1)), store_transposed_ := false }

/-- The graph object as seen after the conditional transpose at source lines
71-77: transposed storage is converted, non-transposed storage is untouched. -/
def dispatched_graph (g : GraphC) : GraphC :=
  if g.store_transposed_ then transpose_storage g else g

/-- The fields of `extract_paths_functor` observed by the boundary after
dispatch: `error_code_`, the error message held by `error_`, `result_`, and the
state of the caller's graph object. -/
structure FunctorState where
  error_code_ : Status
  error_msg_ : String
  result_ : Option ExtractPathsResultC
  graph : GraphC
  deriving DecidableEq, Repr

/-- `extract_paths_functor::operator()` (source lines 60-137), as run by the
vertex dispatcher.  The `sources` argument is stored in the functor (line 41)
and never read by the body.  `.error (msg, g)` models a C++ exception escaping
with message `msg` while the caller's graph object is in state `g`.  The
unsupported-type branch models `unsupported()` at line 69; the remaining
structure mirrors lines 71-135: conditional transpose, renumbering of
destinations and predecessors, path reconstruction, unrenumbering, packaging. -/
def extract_paths_functor_run (g : GraphC) (sources : List Int) (pr : PathsResultC)
    (dests : List Int) (invalid : Int) : Except (String × GraphC) FunctorState :=
  if g.types_supported = true then
    match renumber_ext_vertices (dispatched_graph g).number_map invalid dests with
    | .error msg => .error (msg, dispatched_graph g)
    | .ok destinations =>
      match renumber_ext_vertices (dispatched_graph g).number_map invalid
          pr.predecessors_ with
      | .error msg => .error (msg, dispatched_graph g)
      | .ok preds =>
        match extract_bfs_paths (dispatched_graph g).nverts pr.distances_ preds invalid
            destinations with
        | .error msg => .error (msg, dispatched_graph g)
        | .ok (result, m) =>
          .ok ⟨.success, "",
               some ⟨m, unrenumber_int_vertices (dispatched_graph g).number_map invalid
                 result⟩,
               dispatched_graph g⟩
  else
    .ok ⟨.unsupportedTypeCombination, "Type Dispatcher: unsupported type combination",
         none, g⟩

/-- `cugraph_extract_paths` (source lines 164-213).  Returns the status code and
the values stored into the caller's `result` and `error` out-parameters,
together with the final state of the caller's graph object.  A functor-level
exception is caught and mapped to `CUGRAPH_UNKNOWN_ERROR` carrying the original
message (lines 207-210); a non-success functor code surfaces the functor's
error object and a null result (lines 201-204). -/
def cugraph_extract_paths (g : GraphC) (sources : List Int) (pr : PathsResultC)
    (dests : List Int) (invalid : Int) :
    Status × Option ExtractPathsResultC × Option String × GraphC :=
  match extract_paths_functor_run g sources pr dests invalid with
  | .error (msg, gOut) => (.unknownError, none, some msg, gOut)
  | .ok st =>
    if st.error_code_ ≠ Status.success then
      (st.error_code_, none, some st.error_msg_, st.graph)
    else
      (.success, st.result_, none, st.graph)

/-- `cugraph_extract_paths_result_get_max_path_length` (source lines 143-148). -/
def cugraph_extract_paths_result_get_max_path_length (r : ExtractPathsResultC) : Nat :=
  r.max_path_length_

/-- `cugraph_extract_paths_result_get_paths` (source lines 150-155). -/
def cugraph_extract_paths_result_get_paths (r : ExtractPathsResultC) : List Int :=
  r.paths_

/-- Row `i` of a row-major buffer with stride `m`. -/
def rowOf (buf : List Int) (m i : Nat) : List Int :=
  (buf.drop (i * m)).take m

/-- The `int32` sentinel `invalid_vertex_id`, used for the concrete scenarios. -/
def invalid32 : Int := 2147483647

/-- The chain graph `0 → 1 → 2 → 3` of the spec scenario, identity renumbering. -/
def chainGraph : GraphC :=
  ⟨4, [(0, 1), (1, 2), (2, 3)], [0, 1, 2, 3], false, true⟩

/-- The traversal result of BFS from source `0` on `chainGraph`. -/
def chainPR : PathsResultC :=
  ⟨[0, 1, 2, 3], [invalid32, 0, 1, 2]⟩

instance exceptDecEq {ε α : Type} [DecidableEq ε] [DecidableEq α] :
    DecidableEq (Except ε α) := fun a b =>
  match a, b with
  | .error x, .error y =>
    if h : x = y then isTrue (by rw [h]) else isFalse (by simp [h])
  | .ok x, .ok y =>
    if h : x = y then isTrue (by rw [h]) else isFalse (by simp [h])
  | .error _, .ok _ => isFalse (by simp)
  | .ok _, .error _ => isFalse (by simp)

/-! ### Helper lemmas about the reconstruction engine -/

theorem le_foldl_max (l : List Nat) (a : Nat) : a ≤ l.foldl max a := by
  induction l generalizing a with
  | nil => exact Nat.le_refl a
  | cons x t ih => exact Nat.le_trans (Nat.le_max_left a x) (ih (max a x))

theorem mem_le_foldl_max {x : Nat} {l : List Nat} (h : x ∈ l) : ∀ a, x ≤ l.foldl max a := by
  induction l with
  | nil => cases h
  | cons y t ih =>
    intro a
    rw [List.foldl_cons]
    rcases List.mem_cons.mp h with rfl | hx
    · exact Nat.le_trans (Nat.le_max_right a x) (le_foldl_max t (max a x))
    · exact ih hx (max a y)

theorem foldl_max_perm {l₁ l₂ : List Nat} (p : l₁.Perm l₂) :
    ∀ a, l₁.foldl max a = l₂.foldl max a := by
  induction p with
  | nil => intro _; rfl
  | cons x _ ih => intro a; exact ih (max a x)
  | swap x y t =>
    intro a
    simp only [List.foldl_cons]
    rw [Nat.max_assoc, Nat.max_comm y x, ← Nat.max_assoc]
  | trans _ _ ih₁ ih₂ => intro a; exact (ih₁ a).trans (ih₂ a)

theorem walkList_length (preds : List Int) (invalid : Int) (d : Int) (l : Nat) :
    (walkList preds invalid d l).length = l := by
  induction l generalizing d with
  | zero => rfl
  | succ n ih => simp [walkList, ih]

theorem chainLen_le (preds : List Int) (invalid : Int) (d : Int) (cap l : Nat)
    (h : chainLen preds invalid d cap = some l) : l ≤ cap := by
  induction cap generalizing d l with
  | zero => simp [chainLen] at h
  | succ n ih =>
    rw [chainLen] at h
    split at h
    · cases h; omega
    · rcases Option.map_eq_some'.mp h with ⟨k, hk, rfl⟩
      exact Nat.succ_le_succ (ih _ _ hk)

theorem chainLen_of_chainEnd (preds : List Int) (invalid : Int) :
    ∀ (fuel : Nat) (d v : Int), chainEnd preds invalid d fuel = some v →
      ∃ l, chainLen preds invalid d fuel = some l := by
  intro fuel
  induction fuel with
  | zero => intro d v hv; simp [chainEnd] at hv
  | succ n ih =>
    intro d v hv
    by_cases h : preds.getD d.toNat invalid = invalid
    · exact ⟨1, by rw [chainLen, if_pos h]⟩
    · rw [chainEnd, if_neg h] at hv
      obtain ⟨l, hl⟩ := ih _ _ hv
      refine ⟨l + 1, ?_⟩
      rw [chainLen, if_neg h, hl]
      rfl

theorem rowOf_unrenumber (number_map : List Int) (invalid : Int) (buf : List Int)
    (m i : Nat) :
    rowOf (unrenumber_int_vertices number_map invalid buf) m i =
      (rowOf buf m i).map (fun x => if x = invalid then invalid
        else number_map.getD x.toNat invalid) := by
  rw [rowOf, rowOf, unrenumber_int_vertices, ← List.map_drop, ← List.map_take]

theorem mkRow_length (nverts : Nat) (dists preds : List Int) (invalid : Int) (m : Nat)
    (d : Int) (h : (lenOf nverts dists preds invalid d).getD 0 ≤ m) :
    (mkRow nverts dists preds invalid m d).length = m := by
  simp [mkRow, walkList_length]
  omega

theorem join_row {m : Nat} : ∀ (rows : List (List Int)) (i : Nat) (hi : i < rows.length),
    (∀ r ∈ rows, r.length = m) → (rows.join.drop (i * m)).take m = rows.get ⟨i, hi⟩ := by
  intro rows
  induction rows with
  | nil => intro i hi _; simp at hi
  | cons r rest ih =>
    intro i hi hlen
    have hr : r.length = m := hlen r (List.mem_cons_self r rest)
    cases i with
    | zero =>
      simp only [Nat.zero_mul, List.drop_zero, List.join_cons, List.get]
      exact List.take_left' hr
    | succ i =>
      have hj : (r :: rest).join = r ++ rest.join := rfl
      have h1 : ((r :: rest).join.drop ((i + 1) * m)) = rest.join.drop (i * m) := by
        rw [hj, Nat.succ_mul, Nat.add_comm (i * m) m, ← List.drop_drop,
          List.drop_left' hr]
      rw [h1]
      exact ih i (Nat.lt_of_succ_lt_succ hi) (fun s hs => hlen s (List.mem_cons_of_mem r hs))

theorem join_length_const {m : Nat} : ∀ (rows : List (List Int)),
    (∀ r ∈ rows, r.length = m) → rows.join.length = rows.length * m := by
  intro rows
  induction rows with
  | nil => intro _; simp
  | cons r rest ih =>
    intro hlen
    have hr : r.length = m := hlen r (List.mem_cons_self r rest)
    simp only [List.join_cons, List.length_append, List.length_cons, Nat.succ_mul,
      ih (fun s hs => hlen s (List.mem_cons_of_mem r hs)), hr]
    omega

theorem foldl_max_eraseIdx : ∀ (l : List Nat) (i : Nat) (hi : i < l.length),
    l.get ⟨i, hi⟩ = 0 → ∀ a, (l.eraseIdx i).foldl max a = l.foldl max a := by
  intro l
  induction l with
  | nil => intro i hi; simp at hi
  | cons x t ih =>
    intro i hi h0 a
    cases i with
    | zero =>
      simp only [List.get] at h0
      subst h0
      simp [List.eraseIdx]
    | succ i =>
      simp only [List.eraseIdx, List.foldl_cons]
      exact ih i (Nat.lt_of_succ_lt_succ hi) h0 (max a x)

theorem map_eraseIdx' (f : Int → Nat) : ∀ (l : List Int) (i : Nat),
    (l.eraseIdx i).map f = (l.map f).eraseIdx i := by
  intro l
  induction l with
  | nil => intro i; simp
  | cons x t ih => intro i; cases i <;> simp [List.eraseIdx, ih]

theorem all_of_sub {p : Int → Bool} {l₁ l₂ : List Int} (hsub : ∀ x ∈ l₁, x ∈ l₂)
    (h : l₂.all p = true) : l₁.all p = true := by
  rw [List.all_eq_true] at *
  exact fun x hx => h x (hsub x hx)

/-! ### Characterizations of the engine and the functor -/

theorem extract_ok_iff (nverts : Nat) (dists preds : List Int) (invalid : Int)
    (dests buf : List Int) (m : Nat) :
    extract_bfs_paths nverts dists preds invalid dests = .ok (buf, m) ↔
      ((dests.all (fun d => (lenOf nverts dists preds invalid d).isSome)) = true ∧
       m = maxPathLen nverts dists preds invalid dests ∧
       buf = (dests.map (mkRow nverts dists preds invalid m)).join) := by
  unfold extract_bfs_paths
  split
  next h =>
    simp only [Except.ok.injEq, Prod.mk.injEq]
    constructor
    · rintro ⟨hb, hm⟩
      refine ⟨h, hm.symm, ?_⟩
      rw [← hm]
      exact hb.symm
    · rintro ⟨-, rfl, rfl⟩
      exact ⟨rfl, rfl⟩
  next h =>
    constructor
    · intro he
      exact Except.noConfusion he
    · rintro ⟨hall, -, -⟩
      exact absurd hall h

theorem lenOf_le_max {nverts : Nat} {dists preds : List Int} {invalid : Int}
    {dests : List Int} {d : Int} (hd : d ∈ dests) :
    (lenOf nverts dists preds invalid d).getD 0 ≤
      maxPathLen nverts dists preds invalid dests := by
  unfold maxPathLen
  exact mem_le_foldl_max
    (List.mem_map_of_mem (fun d => (lenOf nverts dists preds invalid d).getD 0) hd) 0

theorem extract_row {nverts : Nat} {dists preds : List Int} {invalid : Int}
    {dests buf : List Int} {m : Nat}
    (h : extract_bfs_paths nverts dists preds invalid dests = .ok (buf, m))
    (i : Nat) (hi : i < dests.length) :
    rowOf buf m i = mkRow nverts dists preds invalid m (dests.get ⟨i, hi⟩) := by
  rcases (extract_ok_iff nverts dists preds invalid dests buf m).mp h with ⟨-, hm, hbuf⟩
  subst hm
  subst hbuf
  have hrows : ∀ r ∈ dests.map
      (mkRow nverts dists preds invalid (maxPathLen nverts dists preds invalid dests)),
      r.length = maxPathLen nverts dists preds invalid dests := by
    intro r hr
    rcases List.mem_map.mp hr with ⟨d, hd, rfl⟩
    exact mkRow_length _ _ _ _ _ _ (lenOf_le_max hd)
  have hjr := join_row
    (dests.map (mkRow nverts dists preds invalid (maxPathLen nverts dists preds invalid dests)))
    i (by simpa using hi) hrows
  rw [rowOf, hjr, List.get_map]

theorem extract_length {nverts : Nat} {dists preds : List Int} {invalid : Int}
    {dests buf : List Int} {m : Nat}
    (h : extract_bfs_paths nverts dists preds invalid dests = .ok (buf, m)) :
    buf.length = dests.length * m := by
  rcases (extract_ok_iff nverts dists preds invalid dests buf m).mp h with ⟨-, hm, hbuf⟩
  subst hm
  subst hbuf
  have hrows : ∀ r ∈ dests.map
      (mkRow nverts dists preds invalid (maxPathLen nverts dists preds invalid dests)),
      r.length = maxPathLen nverts dists preds invalid dests := by
    intro r hr
    rcases List.mem_map.mp hr with ⟨d, hd, rfl⟩
    exact mkRow_length _ _ _ _ _ _ (lenOf_le_max hd)
  rw [join_length_const _ hrows, List.length_map]

theorem functor_run_unsupported {g : GraphC} (s : List Int) (pr : PathsResultC)
    (dests : List Int) (invalid : Int) (hts : ¬ g.types_supported = true) :
    extract_paths_functor_run g s pr dests invalid =
      .ok ⟨.unsupportedTypeCombination, "Type Dispatcher: unsupported type combination",
           none, g⟩ := by
  rw [extract_paths_functor_run, if_neg hts]

theorem functor_run_err_dests {g : GraphC} (s : List Int) (pr : PathsResultC)
    {dests : List Int} {invalid : Int} (hts : g.types_supported = true) {msg : String}
    (h1 : renumber_ext_vertices (dispatched_graph g).number_map invalid dests =
      .error msg) :
    extract_paths_functor_run g s pr dests invalid = .error (msg, dispatched_graph g) := by
  rw [extract_paths_functor_run, if_pos hts, h1]

theorem functor_run_err_preds {g : GraphC} (s : List Int) {pr : PathsResultC}
    {dests : List Int} {invalid : Int} (hts : g.types_supported = true)
    {ds : List Int} {msg : String}
    (h1 : renumber_ext_vertices (dispatched_graph g).number_map invalid dests = .ok ds)
    (h2 : renumber_ext_vertices (dispatched_graph g).number_map invalid pr.predecessors_ =
      .error msg) :
    extract_paths_functor_run g s pr dests invalid = .error (msg, dispatched_graph g) := by
  rw [extract_paths_functor_run, if_pos hts, h1]
  dsimp only
  rw [h2]

theorem functor_run_err_engine {g : GraphC} (s : List Int) {pr : PathsResultC}
    {dests : List Int} {invalid : Int} (hts : g.types_supported = true)
    {ds ps : List Int} {msg : String}
    (h1 : renumber_ext_vertices (dispatched_graph g).number_map invalid dests = .ok ds)
    (h2 : renumber_ext_vertices (dispatched_graph g).number_map invalid pr.predecessors_ =
      .ok ps)
    (h3 : extract_bfs_paths (dispatched_graph g).nverts pr.distances_ ps invalid ds =
      .error msg) :
    extract_paths_functor_run g s pr dests invalid = .error (msg, dispatched_graph g) := by
  rw [extract_paths_functor_run, if_pos hts, h1]
  dsimp only
  rw [h2]
  dsimp only
  rw [h3]

theorem functor_run_ok_full {g : GraphC} (s : List Int) {pr : PathsResultC}
    {dests : List Int} {invalid : Int} (hts : g.types_supported = true)
    {ds ps buf : List Int} {m : Nat}
    (h1 : renumber_ext_vertices (dispatched_graph g).number_map invalid dests = .ok ds)
    (h2 : renumber_ext_vertices (dispatched_graph g).number_map invalid pr.predecessors_ =
      .ok ps)
    (h3 : extract_bfs_paths (dispatched_graph g).nverts pr.distances_ ps invalid ds =
      .ok (buf, m)) :
    extract_paths_functor_run g s pr dests invalid =
      .ok ⟨.success, "",
           some ⟨m, unrenumber_int_vertices (dispatched_graph g).number_map invalid buf⟩,
           dispatched_graph g⟩ := by
  rw [extract_paths_functor_run, if_pos hts, h1]
  dsimp only
  rw [h2]
  dsimp only
  rw [h3]

theorem functor_run_ok_inv {g : GraphC} {s : List Int} {pr : PathsResultC}
    {dests : List Int} {invalid : Int} {st : FunctorState}
    (h : extract_paths_functor_run g s pr dests invalid = .ok st)
    (hsucc : st.error_code_ = .success) :
    ∃ ds ps buf m,
      g.types_supported = true ∧
      renumber_ext_vertices (dispatched_graph g).number_map invalid dests = .ok ds ∧
      renumber_ext_vertices (dispatched_graph g).number_map invalid pr.predecessors_ =
        .ok ps ∧
      extract_bfs_paths (dispatched_graph g).nverts pr.distances_ ps invalid ds =
        .ok (buf, m) ∧
      st = ⟨.success, "",
            some ⟨m, unrenumber_int_vertices (dispatched_graph g).number_map invalid buf⟩,
            dispatched_graph g⟩ := by
  by_cases hts : g.types_supported = true
  · cases h1 : renumber_ext_vertices (dispatched_graph g).number_map invalid dests with
    | error msg =>
      rw [functor_run_err_dests s pr hts h1] at h
      exact Except.noConfusion h
    | ok ds =>
      cases h2 : renumber_ext_vertices (dispatched_graph g).number_map invalid
          pr.predecessors_ with
      | error msg =>
        rw [functor_run_err_preds s hts h1 h2] at h
        exact Except.noConfusion h
      | ok ps =>
        cases h3 : extract_bfs_paths (dispatched_graph g).nverts pr.distances_ ps invalid
            ds with
        | error msg =>
          rw [functor_run_err_engine s hts h1 h2 h3] at h
          exact Except.noConfusion h
        | ok pair =>
          obtain ⟨buf, m⟩ := pair
          rw [functor_run_ok_full s hts h1 h2 h3] at h
          injection h with h
          exact ⟨ds, ps, buf, m, hts, rfl, rfl, h3, h.symm⟩
  · rw [functor_run_unsupported s pr dests invalid hts] at h
    injection h with h
    subst h
    simp at hsucc

theorem functor_run_err_inv {g : GraphC} {s : List Int} {pr : PathsResultC}
    {dests : List Int} {invalid : Int} {msg : String} {gOut : GraphC}
    (h : extract_paths_functor_run g s pr dests invalid = .error (msg, gOut)) :
    g.types_supported = true ∧ gOut = dispatched_graph g := by
  by_cases hts : g.types_supported = true
  · refine ⟨hts, ?_⟩
    cases h1 : renumber_ext_vertices (dispatched_graph g).number_map invalid dests with
    | error msg' =>
      rw [functor_run_err_dests s pr hts h1] at h
      injection h with h
      exact congrArg Prod.snd h.symm
    | ok ds =>
      cases h2 : renumber_ext_vertices (dispatched_graph g).number_map invalid
          pr.predecessors_ with
      | error msg' =>
        rw [functor_run_err_preds s hts h1 h2] at h
        injection h with h
        exact congrArg Prod.snd h.symm
      | ok ps =>
        cases h3 : extract_bfs_paths (dispatched_graph g).nverts pr.distances_ ps invalid
            ds with
        | error msg' =>
          rw [functor_run_err_engine s hts h1 h2 h3] at h
          injection h with h
          exact congrArg Prod.snd h.symm
        | ok pair =>
          obtain ⟨buf, m⟩ := pair
          rw [functor_run_ok_full s hts h1 h2 h3] at h
          exact Except.noConfusion h
  · rw [functor_run_unsupported s pr dests invalid hts] at h
    exact Except.noConfusion h

theorem functor_run_ok_graph {g : GraphC} {s : List Int} {pr : PathsResultC}
    {dests : List Int} {invalid : Int} {st : FunctorState}
    (h : extract_paths_functor_run g s pr dests invalid = .ok st) :
    st.graph = if g.types_supported = true then dispatched_graph g else g := by
  by_cases hts : g.types_supported = true
  · rw [if_pos hts]
    cases h1 : renumber_ext_vertices (dispatched_graph g).number_map invalid dests with
    | error msg =>
      rw [functor_run_err_dests s pr hts h1] at h
      exact Except.noConfusion h
    | ok ds =>
      cases h2 : renumber_ext_vertices (dispatched_graph g).number_map invalid
          pr.predecessors_ with
      | error msg =>
        rw [functor_run_err_preds s hts h1 h2] at h
        exact Except.noConfusion h
      | ok ps =>
        cases h3 : extract_bfs_paths (dispatched_graph g).nverts pr.distances_ ps invalid
            ds with
        | error msg =>
          rw [functor_run_err_engine s hts h1 h2 h3] at h
          exact Except.noConfusion h
        | ok pair =>
          obtain ⟨buf, m⟩ := pair
          rw [functor_run_ok_full s hts h1 h2 h3] at h
          injection h with h
          rw [← h]
  · rw [if_neg hts]
    rw [functor_run_unsupported s pr dests invalid hts] at h
    injection h with h
    rw [← h]

theorem boundary_of_err {g : GraphC} {s : List Int} {pr : PathsResultC}
    {dests : List Int} {invalid : Int} {msg : String} {gOut : GraphC}
    (h : extract_paths_functor_run g s pr dests invalid = .error (msg, gOut)) :
    cugraph_extract_paths g s pr dests invalid = (.unknownError, none, some msg, gOut) := by
  rw [cugraph_extract_paths, h]

theorem boundary_of_ok {g : GraphC} {s : List Int} {pr : PathsResultC}
    {dests : List Int} {invalid : Int} {st : FunctorState}
    (h : extract_paths_functor_run g s pr dests invalid = .ok st) :
    cugraph_extract_paths g s pr dests invalid =
      if st.error_code_ ≠ Status.success then
        (st.error_code_, none, some st.error_msg_, st.graph)
      else
        (.success, st.result_, none, st.graph) := by
  rw [cugraph_extract_paths, h]

theorem boundary_of_ok_success {g : GraphC} {s : List Int} {pr : PathsResultC}
    {dests : List Int} {invalid : Int} {st : FunctorState}
    (h : extract_paths_functor_run g s pr dests invalid = .ok st)
    (hsc : st.error_code_ = Status.success) :
    cugraph_extract_paths g s pr dests invalid =
      (.success, st.result_, none, st.graph) := by
  rw [boundary_of_ok h, if_neg (not_ne_iff.mpr hsc)]

theorem renumber_length {number_map : List Int} {invalid : Int} {xs ys : List Int}
    (h : renumber_ext_vertices number_map invalid xs = .ok ys) : ys.length = xs.length := by
  rw [renumber_ext_vertices] at h
  split at h
  · injection h with h
    rw [← h, List.length_map]
  · exact Except.noConfusion h

theorem renumber_ok_inv {number_map : List Int} {invalid : Int} {xs ys : List Int}
    (h : renumber_ext_vertices number_map invalid xs = .ok ys) :
    (xs.all (fun x => x == invalid || number_map.contains x)) = true ∧
    ys = xs.map (fun x => if x = invalid then invalid
      else (number_map.indexOf x : Int)) := by
  rw [renumber_ext_vertices] at h
  split at h
  · next hall =>
    injection h with h
    exact ⟨hall, h.symm⟩
  · exact Except.noConfusion h

theorem renumber_ok_of_all {number_map : List Int} {invalid : Int} {xs : List Int}
    (hall : (xs.all (fun x => x == invalid || number_map.contains x)) = true) :
    renumber_ext_vertices number_map invalid xs =
      .ok (xs.map (fun x => if x = invalid then invalid
        else (number_map.indexOf x : Int))) := by
  rw [renumber_ext_vertices, if_pos hall]

theorem engine_err_of_lenOf_none {nverts : Nat} {dists preds : List Int} {invalid : Int}
    {dests : List Int} {d : Int} (hd : d ∈ dests)
    (hnone : lenOf nverts dists preds invalid d = none) :
    extract_bfs_paths nverts dists preds invalid dests =
      .error "extract_bfs_paths: predecessor chain exceeded vertex count (cycle suspected)" := by
  rw [extract_bfs_paths, if_neg]
  intro hall
  have hx := List.all_eq_true.mp hall d hd
  rw [hnone] at hx
  simp at hx

theorem unrenumber_get (number_map : List Int) (invalid : Int) (xs : List Int)
    (i : Nat) (hix : i < xs.length)
    (hiu : i < (unrenumber_int_vertices number_map invalid xs).length) :
    (unrenumber_int_vertices number_map invalid xs).get ⟨i, hiu⟩ =
      if xs.get ⟨i, hix⟩ = invalid then invalid
      else number_map.getD (xs.get ⟨i, hix⟩).toNat invalid := by
  simp only [unrenumber_int_vertices] at hiu ⊢
  rw [List.get_map]

theorem boundary_success_inv {g : GraphC} {s : List Int} {pr : PathsResultC}
    {dests : List Int} {invalid : Int} {r : ExtractPathsResultC} {gOut : GraphC}
    (h : cugraph_extract_paths g s pr dests invalid = (.success, some r, none, gOut)) :
    ∃ ds ps buf m,
      g.types_supported = true ∧
      renumber_ext_vertices (dispatched_graph g).number_map invalid dests = .ok ds ∧
      renumber_ext_vertices (dispatched_graph g).number_map invalid pr.predecessors_ =
        .ok ps ∧
      extract_bfs_paths (dispatched_graph g).nverts pr.distances_ ps invalid ds =
        .ok (buf, m) ∧
      r = ⟨m, unrenumber_int_vertices (dispatched_graph g).number_map invalid buf⟩ ∧
      gOut = dispatched_graph g := by
  cases hrun : extract_paths_functor_run g s pr dests invalid with
  | error e =>
    obtain ⟨msg, gE⟩ := e
    rw [boundary_of_err hrun] at h
    simp at h
  | ok st =>
    rw [boundary_of_ok hrun] at h
    by_cases hsc : st.error_code_ ≠ Status.success
    · rw [if_pos hsc] at h
      simp at h
    · rw [if_neg hsc] at h
      have hsc' : st.error_code_ = Status.success := not_ne_iff.mp hsc
      obtain ⟨ds, ps, buf, m, hts, h1, h2, h3, hst⟩ := functor_run_ok_inv hrun hsc'
      subst hst
      simp only [Prod.mk.injEq] at h
      obtain ⟨-, hres, -, hgr⟩ := h
      injection hres with hres
      exact ⟨ds, ps, buf, m, hts, h1, h2, h3, hres.symm, hgr.symm⟩

theorem boundary_graph (g : GraphC) (s : List Int) (pr : PathsResultC) (dests : List Int)
    (invalid : Int) :
    (cugraph_extract_paths g s pr dests invalid).2.2.2 =
      if g.types_supported = true then dispatched_graph g else g := by
  cases hrun : extract_paths_functor_run g s pr dests invalid with
  | error e =>
    obtain ⟨msg, gE⟩ := e
    rw [boundary_of_err hrun]
    obtain ⟨hts, rfl⟩ := functor_run_err_inv hrun
    rw [if_pos hts]
  | ok st =>
    have hg := functor_run_ok_graph hrun
    by_cases hsc : st.error_code_ ≠ Status.success
    · rw [boundary_of_ok hrun, if_pos hsc]
      exact hg
    · rw [boundary_of_ok hrun, if_neg hsc]
      exact hg

/-! ### Claim C1: error reporting at the boundary -/

/-- C1: `cugraph_extract_paths` returns `CUGRAPH_SUCCESS` iff it stores a
non-null result and a null error into the out-parameters; every non-success
return stores a null result and a non-null error message; an exception raised
by a collaborator inside the dispatched functor is caught and mapped to
`CUGRAPH_UNKNOWN_ERROR` with the exception's original message. -/
theorem c1_error_boundary (g : GraphC) (s : List Int) (pr : PathsResultC)
    (dests : List Int) (invalid : Int) (code : Status)
    (res : Option ExtractPathsResultC) (err : Option String) (gOut : GraphC)
    (hout : cugraph_extract_paths g s pr dests invalid = (code, res, err, gOut)) :
    (code = .success ↔ (res.isSome = true ∧ err = none)) ∧
    (code ≠ .success → (res = none ∧ err.isSome = true)) ∧
    (∀ msg gE, extract_paths_functor_run g s pr dests invalid = .error (msg, gE) →
      code = .unknownError ∧ res = none ∧ err = some msg) := by
  cases hrun : extract_paths_functor_run g s pr dests invalid with
  | error e =>
    obtain ⟨msg, gE⟩ := e
    rw [boundary_of_err hrun] at hout
    simp only [Prod.mk.injEq] at hout
    obtain ⟨rfl, rfl, rfl, rfl⟩ := hout
    refine ⟨by simp, by simp, ?_⟩
    intro msg' gE' h'
    injection h' with h'
    injection h' with hm hg
    exact ⟨rfl, rfl, by rw [hm]⟩
  | ok st =>
    rw [boundary_of_ok hrun] at hout
    by_cases hsc : st.error_code_ = Status.success
    · rw [if_neg (not_ne_iff.mpr hsc)] at hout
      obtain ⟨ds, ps, buf, m, hts, h1, h2, h3, hst⟩ := functor_run_ok_inv hrun hsc
      subst hst
      simp only [Prod.mk.injEq] at hout
      obtain ⟨hc, hr, he, -⟩ := hout
      refine ⟨?_, ?_, ?_⟩
      · rw [← hc, ← hr, ← he]
        simp
      · intro hne
        exact absurd hc.symm hne
      · intro msg' gE' h'
        exact Except.noConfusion h'
    · rw [if_pos hsc] at hout
      simp only [Prod.mk.injEq] at hout
      obtain ⟨hc, hr, he, -⟩ := hout
      refine ⟨?_, ?_, ?_⟩
      · rw [← hc, ← hr, ← he]
        simp [hsc]
      · intro _
        rw [← hr, ← he]
        simp
      · intro msg' gE' h'
        exact Except.noConfusion h'

/-- C1 witness: the boundary property evaluated on the chain scenario. -/
theorem c1_error_boundary_witness :
    (Status.success = Status.success ↔
      ((some (⟨4, [0, 1, 2, 3, invalid32, invalid32, 0, 1]⟩ : ExtractPathsResultC)).isSome
          = true ∧
        (none : Option String) = none)) :=
  (c1_error_boundary chainGraph [0] chainPR [3, 1] invalid32 Status.success
    (some ⟨4, [0, 1, 2, 3, invalid32, invalid32, 0, 1]⟩) none chainGraph (by decide)).1

/-! ### Claim C2: the chain scenario -/

/-- C2: on the chain `0→1→2→3` with source `{0}` and destinations `[3, 1]`, the
call succeeds with `max_path_length = 4`, row 0 `[0,1,2,3]` and row 1
`[pad, pad, 0, 1]`. -/
theorem c2_chain_scenario :
    ∃ r : ExtractPathsResultC,
      cugraph_extract_paths chainGraph [0] chainPR [3, 1] invalid32 =
        (.success, some r, none, chainGraph) ∧
      r.max_path_length_ = 4 ∧
      rowOf r.paths_ 4 0 = [0, 1, 2, 3] ∧
      rowOf r.paths_ 4 1 = [invalid32, invalid32, 0, 1] :=
  ⟨⟨4, [0, 1, 2, 3, invalid32, invalid32, 0, 1]⟩, by decide, rfl, by decide, by decide⟩

/-! ### Claim C7: identical inputs, identical outputs -/

/-- C7: two calls of `cugraph_extract_paths` on identical inputs yield identical
results (same status, same path buffer contents, same `max_path_length`). -/
theorem c7_idempotent (g : GraphC) (s : List Int) (pr : PathsResultC) (dests : List Int)
    (invalid : Int) (r₁ r₂ : Status × Option ExtractPathsResultC × Option String × GraphC)
    (h₁ : r₁ = cugraph_extract_paths g s pr dests invalid)
    (h₂ : r₂ = cugraph_extract_paths g s pr dests invalid) : r₁ = r₂ :=
  h₁.trans h₂.symm

/-- C7 witness: the chain scenario run twice. -/
theorem c7_idempotent_witness :
    cugraph_extract_paths chainGraph [0] chainPR [3, 1] invalid32 =
      cugraph_extract_paths chainGraph [0] chainPR [3, 1] invalid32 :=
  c7_idempotent chainGraph [0] chainPR [3, 1] invalid32 _ _ rfl rfl

/-! ### Claim C9: the result is independent of `sources` -/

/-- C9: the `sources` argument is stored in the functor but never read, so two
calls differing only in `sources` produce identical results (and identical
graph post-states). -/
theorem c9_sources_ignored (g : GraphC) (s₁ s₂ : List Int) (pr : PathsResultC)
    (dests : List Int) (invalid : Int) :
    cugraph_extract_paths g s₁ pr dests invalid =
      cugraph_extract_paths g s₂ pr dests invalid := rfl

/-! ### Claim C10: the transpose mutation persists -/

/-- C10: when the graph is stored transposed (and the type combination is
dispatched), `cugraph_extract_paths` transposes the caller's graph object in
place before reconstruction and the mutation persists after the call returns;
a non-transposed graph is left unchanged. -/
theorem c10_transpose_persists (g : GraphC) (s : List Int) (pr : PathsResultC)
    (dests : List Int) (invalid : Int) :
    (g.store_transposed_ = false →
      (cugraph_extract_paths g s pr dests invalid).2.2.2 = g) ∧
    (g.store_transposed_ = true → g.types_supported = true →
      (cugraph_extract_paths g s pr dests invalid).2.2.2 = transpose_storage g ∧
      ((cugraph_extract_paths g s pr dests invalid).2.2.2).store_transposed_ = false) := by
  constructor
  · intro hst
    rw [boundary_graph]
    by_cases hts : g.types_supported = true
    · rw [if_pos hts, dispatched_graph, hst]
      simp
    · rw [if_neg hts]
  · intro hst hts
    rw [boundary_graph, if_pos hts, dispatched_graph, hst]
    exact ⟨by simp, by simp [transpose_storage]⟩

/-- A graph held in transposed storage, for the C10 witness. -/
def transposedGraph : GraphC := ⟨2, [(0, 1)], [0, 1], true, true⟩

/-- C10 witness: a transposed graph is transposed in place and the flag is
cleared after the call. -/
theorem c10_transpose_persists_witness :
    (cugraph_extract_paths transposedGraph [0] ⟨[0, 1], [invalid32, 0]⟩ [1]
        invalid32).2.2.2 = transpose_storage transposedGraph ∧
    ((cugraph_extract_paths transposedGraph [0] ⟨[0, 1], [invalid32, 0]⟩ [1]
        invalid32).2.2.2).store_transposed_ = false :=
  (c10_transpose_persists transposedGraph [0] ⟨[0, 1], [invalid32, 0]⟩ [1] invalid32).2
    rfl rfl

/-! ### Claim C3: unreachable destinations -/

/-- C3: a destination that is unreachable — its distance entry is the sentinel,
or its predecessor chain terminates without reaching a true source marker (the
terminal vertex does not carry distance 0) — has reconstructed length 0, an
all-pad row (both before and after unrenumbering) and does not contribute to
the returned maximum path length. -/
theorem c3_unreachable_row (nverts : Nat) (dists preds : List Int) (invalid : Int)
    (dests buf : List Int) (m : Nat) (i : Nat) (hi : i < dests.length)
    (hunreach : dists.getD (dests.get ⟨i, hi⟩).toNat invalid = invalid ∨
      (∃ v, chainEnd preds invalid (dests.get ⟨i, hi⟩) nverts = some v ∧
        dists.getD v.toNat invalid ≠ 0))
    (h : extract_bfs_paths nverts dists preds invalid dests = .ok (buf, m)) :
    lenOf nverts dists preds invalid (dests.get ⟨i, hi⟩) = some 0 ∧
    rowOf buf m i = List.replicate m invalid ∧
    (∀ number_map : List Int,
      rowOf (unrenumber_int_vertices number_map invalid buf) m i =
        List.replicate m invalid) ∧
    (∃ buf', extract_bfs_paths nverts dists preds invalid (dests.eraseIdx i) =
      .ok (buf', m)) := by
  have hlen : lenOf nverts dists preds invalid (dests.get ⟨i, hi⟩) = some 0 := by
    rcases hunreach with hdist | ⟨v, hv, hv0⟩
    · rw [lenOf, if_pos hdist]
    · by_cases hdist : dists.getD (dests.get ⟨i, hi⟩).toNat invalid = invalid
      · rw [lenOf, if_pos hdist]
      · obtain ⟨l, hl⟩ := chainLen_of_chainEnd preds invalid nverts _ _ hv
        rw [lenOf, if_neg hdist, hl, hv]
        dsimp only
        rw [if_neg hv0]
  have hrow : rowOf buf m i = List.replicate m invalid := by
    rw [extract_row h i hi, mkRow, hlen]
    simp [walkList]
  have hmap' : ∀ number_map : List Int,
      rowOf (unrenumber_int_vertices number_map invalid buf) m i =
        List.replicate m invalid := by
    intro nm
    rw [rowOf_unrenumber, hrow, List.map_replicate]
    simp
  rcases (extract_ok_iff nverts dists preds invalid dests buf m).mp h with ⟨hall, hm, hbuf⟩
  have hall' : ((dests.eraseIdx i).all
      (fun d => (lenOf nverts dists preds invalid d).isSome)) = true :=
    all_of_sub (fun x hx => List.eraseIdx_subset dests i hx) hall
  have hget0 : ((dests.map (fun d => (lenOf nverts dists preds invalid d).getD 0)).get
      ⟨i, by simpa using hi⟩) = 0 := by
    rw [List.get_map]
    show (lenOf nverts dists preds invalid (dests.get ⟨i, hi⟩)).getD 0 = 0
    rw [hlen]
    rfl
  have hm' : maxPathLen nverts dists preds invalid (dests.eraseIdx i) =
      maxPathLen nverts dists preds invalid dests := by
    rw [maxPathLen, maxPathLen, map_eraseIdx']
    exact foldl_max_eraseIdx _ i (by simpa using hi) hget0 0
  refine ⟨hlen, hrow, hmap', ⟨((dests.eraseIdx i).map
    (mkRow nverts dists preds invalid m)).join, ?_⟩⟩
  rw [extract_bfs_paths, if_pos hall', hm', ← hm]

/-- C3 witness: destination `2` has a valid distance entry but its predecessor
chain terminates at vertex `1`, which is not a true source (its distance is not
0), so its row is all-pad and the maximum is unchanged without it. -/
theorem c3_unreachable_row_witness :
    lenOf 3 [0, invalid32, 5] [invalid32, invalid32, 1] invalid32 2 = some 0 ∧
    rowOf [0, invalid32] 1 1 = List.replicate 1 invalid32 ∧
    (∀ number_map : List Int,
      rowOf (unrenumber_int_vertices number_map invalid32 [0, invalid32]) 1 1 =
        List.replicate 1 invalid32) ∧
    (∃ buf', extract_bfs_paths 3 [0, invalid32, 5] [invalid32, invalid32, 1] invalid32
        (([0, 2] : List Int).eraseIdx 1) = .ok (buf', 1)) :=
  c3_unreachable_row 3 [0, invalid32, 5] [invalid32, invalid32, 1] invalid32 [0, 2]
    [0, invalid32] 1 1 (by decide) (Or.inr ⟨1, by decide, by decide⟩) (by decide)

/-! ### Claim C4: the output is unrenumbered, sentinels preserved -/

/-- C4: on success the returned path buffer is the engine's internal buffer
translated entrywise: sentinel entries are preserved verbatim, every other
entry is the caller-space id obtained from the renumbering map. -/
theorem c4_unrenumbered_output (g : GraphC) (s : List Int) (pr : PathsResultC)
    (dests : List Int) (invalid : Int) (r : ExtractPathsResultC) (gOut : GraphC)
    (h : cugraph_extract_paths g s pr dests invalid = (.success, some r, none, gOut)) :
    ∃ buf : List Int,
      r.paths_ = unrenumber_int_vertices gOut.number_map invalid buf ∧
      buf.length = r.paths_.length ∧
      ∀ i (hib : i < buf.length) (hip : i < r.paths_.length),
        (buf.get ⟨i, hib⟩ = invalid → r.paths_.get ⟨i, hip⟩ = invalid) ∧
        (buf.get ⟨i, hib⟩ ≠ invalid →
          r.paths_.get ⟨i, hip⟩ =
            gOut.number_map.getD (buf.get ⟨i, hib⟩).toNat invalid) := by
  obtain ⟨ds, ps, buf, m, hts, h1, h2, h3, hr, hg⟩ := boundary_success_inv h
  subst hr
  subst hg
  refine ⟨buf, rfl, by simp [unrenumber_int_vertices], ?_⟩
  intro i hib hip
  constructor
  · intro hinv
    exact (unrenumber_get (dispatched_graph g).number_map invalid buf i hib hip).trans
      (if_pos hinv)
  · intro hninv
    exact (unrenumber_get (dispatched_graph g).number_map invalid buf i hib hip).trans
      (if_neg hninv)

/-- C4 witness: the chain scenario's output buffer. -/
theorem c4_unrenumbered_output_witness :
    ∃ buf : List Int,
      (⟨4, [0, 1, 2, 3, invalid32, invalid32, 0, 1]⟩ : ExtractPathsResultC).paths_ =
        unrenumber_int_vertices chainGraph.number_map invalid32 buf ∧
      buf.length =
        (⟨4, [0, 1, 2, 3, invalid32, invalid32, 0, 1]⟩ : ExtractPathsResultC).paths_.length ∧
      ∀ i (hib : i < buf.length)
        (hip : i < (⟨4, [0, 1, 2, 3, invalid32, invalid32, 0, 1]⟩ :
          ExtractPathsResultC).paths_.length),
        (buf.get ⟨i, hib⟩ = invalid32 →
          (⟨4, [0, 1, 2, 3, invalid32, invalid32, 0, 1]⟩ :
            ExtractPathsResultC).paths_.get ⟨i, hip⟩ = invalid32) ∧
        (buf.get ⟨i, hib⟩ ≠ invalid32 →
          (⟨4, [0, 1, 2, 3, invalid32, invalid32, 0, 1]⟩ :
            ExtractPathsResultC).paths_.get ⟨i, hip⟩ =
            chainGraph.number_map.getD (buf.get ⟨i, hib⟩).toNat invalid32) :=
  c4_unrenumbered_output chainGraph [0] chainPR [3, 1] invalid32
    ⟨4, [0, 1, 2, 3, invalid32, invalid32, 0, 1]⟩ chainGraph (by decide)

/-! ### Claim C5: buffer length is D × L_max -/

/-- C5: on success the returned path buffer has length exactly
`destinations.length * max_path_length`. -/
theorem c5_buffer_length (g : GraphC) (s : List Int) (pr : PathsResultC)
    (dests : List Int) (invalid : Int) (r : ExtractPathsResultC) (gOut : GraphC)
    (h : cugraph_extract_paths g s pr dests invalid = (.success, some r, none, gOut)) :
    r.paths_.length = dests.length * r.max_path_length_ := by
  obtain ⟨ds, ps, buf, m, hts, h1, h2, h3, hr, hg⟩ := boundary_success_inv h
  subst hr
  have hb : buf.length = ds.length * m := extract_length h3
  have hd : ds.length = dests.length := renumber_length h1
  simp only [unrenumber_int_vertices, List.length_map]
  rw [hb, hd]

/-- C5 witness: the chain scenario: 8 = 2 × 4. -/
theorem c5_buffer_length_witness :
    (⟨4, [0, 1, 2, 3, invalid32, invalid32, 0, 1]⟩ : ExtractPathsResultC).paths_.length =
      ([3, 1] : List Int).length *
        (⟨4, [0, 1, 2, 3, invalid32, invalid32, 0, 1]⟩ :
          ExtractPathsResultC).max_path_length_ :=
  c5_buffer_length chainGraph [0] chainPR [3, 1] invalid32
    ⟨4, [0, 1, 2, 3, invalid32, invalid32, 0, 1]⟩ chainGraph (by decide)

/-! ### Claim C6: row order matches destination order, permutation-compatibly -/

/-- Engine level: each row is a function of its destination alone given the
permutation-invariant `L_max`, so the engine on a permuted destination list
yields the same `L_max` and correspondingly permuted rows. -/
theorem extract_perm (nverts : Nat) (dists preds : List Int) (invalid : Int)
    (dests dests' buf : List Int) (m : Nat) (hp : dests.Perm dests')
    (h : extract_bfs_paths nverts dists preds invalid dests = .ok (buf, m)) :
    ∃ buf', extract_bfs_paths nverts dists preds invalid dests' = .ok (buf', m) ∧
      ∀ i i' (hi : i < dests.length) (hi' : i' < dests'.length),
        dests.get ⟨i, hi⟩ = dests'.get ⟨i', hi'⟩ →
        rowOf buf m i = rowOf buf' m i' := by
  rcases (extract_ok_iff nverts dists preds invalid dests buf m).mp h with ⟨hall, hm, hbuf⟩
  have hall' : (dests'.all (fun d => (lenOf nverts dists preds invalid d).isSome)) = true :=
    all_of_sub (fun x hx => hp.symm.subset hx) hall
  have hm' : maxPathLen nverts dists preds invalid dests' =
      maxPathLen nverts dists preds invalid dests := by
    rw [maxPathLen, maxPathLen]
    exact (foldl_max_perm (hp.map (fun d => (lenOf nverts dists preds invalid d).getD 0)) 0).symm
  have he' : extract_bfs_paths nverts dists preds invalid dests' =
      .ok ((dests'.map (mkRow nverts dists preds invalid m)).join, m) := by
    rw [extract_bfs_paths, if_pos hall', hm', ← hm]
  refine ⟨_, he', ?_⟩
  intro i i' hi hi' heq
  rw [extract_row h i hi, extract_row he' i' hi', heq]

/-- C6: output row `i` corresponds to input destination `i`: calling
`cugraph_extract_paths` on a permutation of the destination list also succeeds,
returns the same `max_path_length`, and its returned buffer consists of the
same rows permuted by the same permutation, content unchanged. -/
theorem c6_permutation (g : GraphC) (s : List Int) (pr : PathsResultC)
    (dests dests' : List Int) (invalid : Int) (hp : dests.Perm dests')
    (r : ExtractPathsResultC) (gOut : GraphC)
    (h : cugraph_extract_paths g s pr dests invalid = (.success, some r, none, gOut)) :
    ∃ r' : ExtractPathsResultC,
      cugraph_extract_paths g s pr dests' invalid = (.success, some r', none, gOut) ∧
      r'.max_path_length_ = r.max_path_length_ ∧
      ∀ i i' (hi : i < dests.length) (hi' : i' < dests'.length),
        dests.get ⟨i, hi⟩ = dests'.get ⟨i', hi'⟩ →
        rowOf r.paths_ r.max_path_length_ i =
          rowOf r'.paths_ r'.max_path_length_ i' := by
  obtain ⟨ds, ps, buf, m, hts, h1, h2, h3, hr, hg⟩ := boundary_success_inv h
  subst hr
  subst hg
  obtain ⟨hall1, hds⟩ := renumber_ok_inv h1
  subst hds
  have hall1' : (dests'.all (fun x => x == invalid ||
      (dispatched_graph g).number_map.contains x)) = true :=
    all_of_sub (fun x hx => hp.symm.subset hx) hall1
  have h1' := @renumber_ok_of_all (dispatched_graph g).number_map invalid dests' hall1'
  have hpm := hp.map (fun x => if x = invalid then invalid
    else (((dispatched_graph g).number_map.indexOf x : Nat) : Int))
  obtain ⟨buf', he', hrows⟩ := extract_perm (dispatched_graph g).nverts pr.distances_
    ps invalid _ _ buf m hpm h3
  have hok := functor_run_ok_full s hts h1' h2 he'
  have hb := boundary_of_ok_success hok rfl
  refine ⟨⟨m, unrenumber_int_vertices (dispatched_graph g).number_map invalid buf'⟩,
    hb, rfl, ?_⟩
  intro i i' hi hi' heq
  show rowOf (unrenumber_int_vertices (dispatched_graph g).number_map invalid buf) m i =
    rowOf (unrenumber_int_vertices (dispatched_graph g).number_map invalid buf') m i'
  rw [rowOf_unrenumber, rowOf_unrenumber]
  have hi2 : i < (dests.map (fun x => if x = invalid then invalid
      else (((dispatched_graph g).number_map.indexOf x : Nat) : Int))).length := by
    simpa using hi
  have hi2' : i' < (dests'.map (fun x => if x = invalid then invalid
      else (((dispatched_graph g).number_map.indexOf x : Nat) : Int))).length := by
    simpa using hi'
  have hgeq : (dests.map (fun x => if x = invalid then invalid
        else (((dispatched_graph g).number_map.indexOf x : Nat) : Int))).get ⟨i, hi2⟩ =
      (dests'.map (fun x => if x = invalid then invalid
        else (((dispatched_graph g).number_map.indexOf x : Nat) : Int))).get
        ⟨i', hi2'⟩ := by
    rw [List.get_map, List.get_map]
    show (fun x => if x = invalid then invalid
      else (((dispatched_graph g).number_map.indexOf x : Nat) : Int))
        (dests.get ⟨i, hi⟩) = _
    rw [heq]
  rw [hrows i i' hi2 hi2' hgeq]

/-- C6 witness: the chain scenario with destinations `[3, 1]` versus `[1, 3]`. -/
theorem c6_permutation_witness :
    ∃ r' : ExtractPathsResultC,
      cugraph_extract_paths chainGraph [0] chainPR [1, 3] invalid32 =
        (.success, some r', none, chainGraph) ∧
      r'.max_path_length_ = 4 ∧
      ∀ i i' (hi : i < ([3, 1] : List Int).length)
        (hi' : i' < ([1, 3] : List Int).length),
        ([3, 1] : List Int).get ⟨i, hi⟩ = ([1, 3] : List Int).get ⟨i', hi'⟩ →
        rowOf [0, 1, 2, 3, invalid32, invalid32, 0, 1] 4 i =
          rowOf r'.paths_ r'.max_path_length_ i' :=
  c6_permutation chainGraph [0] chainPR [3, 1] [1, 3] invalid32
    (List.Perm.swap 1 3 []) ⟨4, [0, 1, 2, 3, invalid32, invalid32, 0, 1]⟩ chainGraph
    (by decide)

/-! ### Claim C8: bounded predecessor walks, abort on suspected cycle -/

/-- C8: every predecessor walk is fuel-capped (a successful walk of the engine
takes at most `cap` steps, instantiated at the graph's vertex count); a walk
that exceeds the cap makes the engine abort with an internal-consistency
failure, which the boundary surfaces as an error with a null result. -/
theorem c8_bounded_walk :
    (∀ (preds : List Int) (invalid d : Int) (cap l : Nat),
      chainLen preds invalid d cap = some l → l ≤ cap) ∧
    (∀ (nverts : Nat) (dists preds : List Int) (invalid : Int) (dests : List Int)
       (d : Int), d ∈ dests → lenOf nverts dists preds invalid d = none →
      ∃ msg, extract_bfs_paths nverts dists preds invalid dests = .error msg) ∧
    (∀ (g : GraphC) (s : List Int) (pr : PathsResultC) (dests : List Int)
       (invalid : Int) (ds ps : List Int) (d : Int),
      g.types_supported = true →
      renumber_ext_vertices (dispatched_graph g).number_map invalid dests = .ok ds →
      renumber_ext_vertices (dispatched_graph g).number_map invalid pr.predecessors_ =
        .ok ps →
      d ∈ ds →
      lenOf (dispatched_graph g).nverts pr.distances_ ps invalid d = none →
      ∃ msg, cugraph_extract_paths g s pr dests invalid =
        (.unknownError, none, some msg, dispatched_graph g)) := by
  refine ⟨chainLen_le, ?_, ?_⟩
  · intro nverts dists preds invalid dests d hd hnone
    exact ⟨_, engine_err_of_lenOf_none hd hnone⟩
  · intro g s pr dests invalid ds ps d hts h1 h2 hd hnone
    exact ⟨_, boundary_of_err (functor_run_err_engine s hts h1 h2
      (engine_err_of_lenOf_none hd hnone))⟩

/-- A two-vertex graph whose traversal data contains a predecessor cycle
`0 ↔ 1`, for the C8 witness. -/
def cycleGraph : GraphC := ⟨2, [(0, 1), (1, 0)], [0, 1], false, true⟩

/-- C8 witness: the predecessor cycle `0 ↔ 1` makes the call abort with an
unknown-error status and a null result. -/
theorem c8_bounded_walk_witness :
    ∃ msg, cugraph_extract_paths cycleGraph [0] ⟨[0, 1], [1, 0]⟩ [0] invalid32 =
      (.unknownError, none, some msg, dispatched_graph cycleGraph) :=
  c8_bounded_walk.2.2 cycleGraph [0] ⟨[0, 1], [1, 0]⟩ [0] invalid32 [0] [1, 0] 0
    rfl (by decide) (by decide) (by decide) (by decide)
